import Mathlib

/-!
Shallow embedding of `src/platform/src/pulp/client/search.py` (pulpcore
client search command module) and proofs about its parsing, validation
and command-composition logic.

Python strings are embedded as `List Char`; `str.split(sep)` and
`str.split(sep, 1)` are embedded by `pySplit` and `pySplitOnce`;
exceptions are embedded as `Except ClientError`.
-/

namespace PulpSearch

/-- Errors raised by the client search module: `valueError msg` embeds a
Python `ValueError(msg)` (the spec's FormatError / ValidationError classes)
and `commandUsage` embeds okaara's `CommandUsage` (the spec's UsageFault). -/
inductive ClientError where
  | valueError : String → ClientError
  | commandUsage : ClientError
deriving DecidableEq

/-- Auxiliary for `pySplitOnce`: returns the part of `l` before the first
`sep` and, when `sep` occurs, `some` of the part after it. -/
def splitOnceAux (sep : Char) : List Char → List Char × Option (List Char)
  | [] => ([], none)
  | c :: rest =>
    if c = sep then ([], some rest)
    else
      let r := splitOnceAux sep rest
      (c :: r.1, r.2)

/-- Embedding of Python `s.split(sep, 1)` for a one-character separator:
`[s]` when `sep` does not occur in `s`, otherwise the two parts around
the first occurrence. -/
def pySplitOnce (sep : Char) (l : List Char) : List (List Char) :=
  match splitOnceAux sep l with
  | (h, none) => [h]
  | (h, some t) => [h, t]

/-- Auxiliary for `pySplit`: first piece and list of remaining pieces. -/
def splitAllAux (sep : Char) : List Char → List Char × List (List Char)
  | [] => ([], [])
  | c :: rest =>
    let r := splitAllAux sep rest
    if c = sep then ([], r.1 :: r.2) else (c :: r.1, r.2)

/-- Embedding of Python `s.split(sep)` for a one-character separator
(`"".split(sep) = [""]`, `"a,".split(",") = ["a", ""]`, etc.). -/
def pySplit (sep : Char) (l : List Char) : List (List Char) :=
  (splitAllAux sep l).1 :: (splitAllAux sep l).2

/-- Message of the `ValueError` raised by `_parse_key_value`. -/
def kvErrorMsg : String := "key and value must be separated by \"=\""

/-- Embedding of `SearchCommand._parse_key_value`: splits each raw string
on the first `=` into a (name, value) pair, raising `ValueError` when a
string cannot be split into exactly two components. -/
def parse_key_value : List (List Char) → Except ClientError (List (List Char × List Char))
  | [] => .ok []
  | arg :: rest =>
    match pySplitOnce '=' arg with
    | [k, v] => (parse_key_value rest).map (fun r => (k, v) :: r)
    | _ => .error (ClientError.valueError kvErrorMsg)

/-- The literal direction string `ascending`. -/
def ascendingKW : List Char := "ascending".toList

/-- The literal direction string `descending`. -/
def descendingKW : List Char := "descending".toList

/-- Embedding of `SearchCommand._explode_sort_arg_pieces`: lower-cases the
raw token, splits it on `,`, takes component 0 as the field name and
computes the direction exactly as `''.join(pieces[1:2]) or 'ascending'`
does. -/
def explode_sort_arg_pieces (sort_arg : List Char) : List Char × List Char :=
  let pieces := pySplit ',' (sort_arg.map Char.toLower)
  let field_name := pieces.headD []
  let joined := ((pieces.drop 1).take 1).flatten
  let direction := if joined = [] then ascendingKW else joined
  (field_name, direction)

/-- Specification-side restatement of the sort-token decomposition, written
from the spec's algorithm description: lower-case the whole token, split on
`,`, component 0 is the field name, only component 1 is consulted as the
direction (any later components are ignored), and the direction defaults to
`ascending` when no second component is present (or when it is present but
empty, as claim C9 makes explicit). -/
def explodeSortArgSpec (sort_arg : List Char) : List Char × List Char :=
  let pieces := pySplit ',' (sort_arg.map Char.toLower)
  let direction :=
    match pieces[1]? with
    | none => ascendingKW
    | some d => if d = [] then ascendingKW else d
  (pieces.headD [], direction)

/-- Message of the `ValueError` raised by `_validate_sort` on an empty
field name. -/
def fieldNameErrorMsg : String := "field name must be specified"

/-- Message of the `ValueError` raised by `_validate_sort` on an illegal
direction. -/
def directionErrorMsg : String := "direction must be \"ascending\" or \"descending\""

/-- Embedding of `SearchCommand._validate_sort`: for each sort token,
explodes it and raises `ValueError` when the field name is empty or the
direction is not `ascending`/`descending`. -/
def validate_sort : List (List Char) → Except ClientError Unit
  | [] => .ok ()
  | arg :: rest =>
    let p := explode_sort_arg_pieces arg
    if p.1.length = 0 then .error (ClientError.valueError fieldNameErrorMsg)
    else if ¬ (p.2 = ascendingKW ∨ p.2 = descendingKW) then
      .error (ClientError.valueError directionErrorMsg)
    else validate_sort rest

/-- Embedding of `SearchCommand._parse_sort`: explodes each sort token,
raising okaara's `CommandUsage` when the re-derived direction is not
`ascending`/`descending` ("validation should have caught this"), and
otherwise accumulates the (field, direction) pairs in input order. -/
def parse_sort : List (List Char) → Except ClientError (List (List Char × List Char))
  | [] => .ok []
  | value :: rest =>
    let p := explode_sort_arg_pieces value
    if ¬ (p.2 = ascendingKW ∨ p.2 = descendingKW) then .error ClientError.commandUsage
    else (parse_sort rest).map (fun r => p :: r)

/-- A registered command-line option: its flag name and whether it is
required. Option registration itself is supplied by the external CLI
framework (okaara), which the spec treats as a collaborator; here a
command's option set is the list of options its constructor registers, in
registration order. -/
structure CmdOption where
  name : String
  required : Bool
deriving DecidableEq

/-- Options registered by `SearchCommand.add_filtering`: the raw
`--filters` JSON option plus the per-operator filter group. -/
def filteringOptions : List CmdOption :=
  [⟨"--filters", false⟩, ⟨"--str-eq", false⟩, ⟨"--int-eq", false⟩,
   ⟨"--match", false⟩, ⟨"--in", false⟩, ⟨"--not", false⟩, ⟨"--gt", false⟩,
   ⟨"--gte", false⟩, ⟨"--lt", false⟩, ⟨"--lte", false⟩]

/-- Options registered by `SearchCommand.add_full_criteria_options`. -/
def fullCriteriaOptions : List CmdOption :=
  [⟨"--limit", false⟩, ⟨"--skip", false⟩, ⟨"--sort", false⟩, ⟨"--fields", false⟩]

/-- Option set built by `SearchCommand.__init__(method, filtering, criteria)`. -/
def searchCommandOptions (filtering criteria : Bool) : List CmdOption :=
  (if filtering then filteringOptions else []) ++
  (if criteria then fullCriteriaOptions else [])

/-- Option set built by `UnitSearchCommand.__init__`: the base search
options plus the required `--repo-id` and the optional `--after` and
`--before` bounds. -/
def unitSearchCommandOptions (filtering criteria : Bool) : List CmdOption :=
  searchCommandOptions filtering criteria ++
  [⟨"--repo-id", true⟩, ⟨"--after", false⟩, ⟨"--before", false⟩]

/-- Option set built by `UnitCopyCommand.__init__`: forces
`criteria = False`, removes `--repo-id` from the inherited options, and
adds the required `--from-repo-id` and `--to-repo-id`. -/
def unitCopyCommandOptions (filtering : Bool) : List CmdOption :=
  ((unitSearchCommandOptions filtering false).filter
    (fun o => o.name != "--repo-id")) ++
  [⟨"--from-repo-id", true⟩, ⟨"--to-repo-id", true⟩]

/-- Option set built by `UnitSearchAllCommand.__init__`: forces
`filtering = False` and removes `--sort` and `--fields` from the inherited
options. -/
def unitSearchAllCommandOptions (criteria : Bool) : List CmdOption :=
  (unitSearchCommandOptions false criteria).filter
    (fun o => o.name != "--sort" && o.name != "--fields")

/-! Helper lemmas about the split embeddings. -/

/-- When `sep` does not occur, `splitOnceAux` returns the whole list and no
second part. -/
theorem splitOnceAux_of_not_mem (sep : Char) (l : List Char) (h : sep ∉ l) :
    splitOnceAux sep l = (l, none) := by
  induction l with
  | nil => rfl
  | cons c rest ih =>
    have hc : ¬ c = sep := fun hc => h (hc ▸ List.mem_cons_self c rest)
    have hr : sep ∉ rest := fun hm => h (List.mem_cons_of_mem c hm)
    simp [splitOnceAux, hc, ih hr]

/-- When `sep` occurs, `splitOnceAux` returns the prefix before its first
occurrence and the suffix after it. -/
theorem splitOnceAux_of_mem (sep : Char) (l : List Char) (h : sep ∈ l) :
    splitOnceAux sep l =
      (l.takeWhile (fun c => c ≠ sep), some ((l.dropWhile (fun c => c ≠ sep)).drop 1)) := by
  induction l with
  | nil => cases h
  | cons c rest ih =>
    by_cases hc : c = sep
    · subst hc
      simp [splitOnceAux, List.takeWhile, List.dropWhile]
    · have hr : sep ∈ rest := by
        cases h with
        | head => exact absurd rfl hc
        | tail _ hm => exact hm
      simp [splitOnceAux, hc, ih hr, List.takeWhile, List.dropWhile]

theorem pySplitOnce_of_mem (sep : Char) (l : List Char) (h : sep ∈ l) :
    pySplitOnce sep l =
      [l.takeWhile (fun c => c ≠ sep), (l.dropWhile (fun c => c ≠ sep)).drop 1] := by
  simp [pySplitOnce, splitOnceAux_of_mem sep l h]

theorem pySplitOnce_of_not_mem (sep : Char) (l : List Char) (h : sep ∉ l) :
    pySplitOnce sep l = [l] := by
  simp [pySplitOnce, splitOnceAux_of_not_mem sep l h]

/-- Appending the separator at the end adds one trailing empty piece to
`splitAllAux`. -/
theorem splitAllAux_append_sep (sep : Char) (l : List Char) :
    splitAllAux sep (l ++ [sep]) =
      ((splitAllAux sep l).1, (splitAllAux sep l).2 ++ [[]]) := by
  induction l with
  | nil => simp [splitAllAux]
  | cons c rest ih =>
    by_cases hc : c = sep <;> simp [splitAllAux, hc, ih]

/-- Appending the separator at the end adds one trailing empty piece to the
Python-style split. -/
theorem pySplit_append_sep (sep : Char) (l : List Char) :
    pySplit sep (l ++ [sep]) = pySplit sep l ++ [[]] := by
  simp [pySplit, splitAllAux_append_sep]

/-- Every error raised by `parse_key_value` carries the message of
`_parse_key_value`'s single `raise ValueError` site. -/
theorem parse_key_value_error_msg (args : List (List Char)) (e : ClientError)
    (h : parse_key_value args = .error e) : e = ClientError.valueError kvErrorMsg := by
  induction args with
  | nil => simp [parse_key_value] at h
  | cons a rest ih =>
    by_cases ha : '=' ∈ a
    · rw [show parse_key_value (a :: rest) =
          (parse_key_value rest).map
            (fun r => (a.takeWhile (fun c => c ≠ '='),
                       (a.dropWhile (fun c => c ≠ '=')).drop 1) :: r) by
        simp [parse_key_value, pySplitOnce_of_mem '=' a ha]] at h
      cases hre : parse_key_value rest with
      | ok l => rw [hre] at h; simp [Except.map] at h
      | error e' =>
        rw [hre] at h
        injection h with h2
        subst h2
        exact ih hre
    · simp [parse_key_value, pySplitOnce_of_not_mem '=' a ha] at h
      exact h.symm

/-! Helper lemmas about sort validation and parsing. -/

/-- `validate_sort` succeeds exactly when every token explodes to a
nonempty field name and a legal direction. -/
theorem validate_sort_ok_iff (args : List (List Char)) :
    validate_sort args = .ok () ↔
      ∀ a ∈ args, (explode_sort_arg_pieces a).1 ≠ [] ∧
        ((explode_sort_arg_pieces a).2 = ascendingKW ∨
         (explode_sort_arg_pieces a).2 = descendingKW) := by
  induction args with
  | nil => simp [validate_sort]
  | cons a rest ih =>
    by_cases h1 : (explode_sort_arg_pieces a).1.length = 0
    · have h1' : (explode_sort_arg_pieces a).1 = [] := List.length_eq_zero.mp h1
      simp [validate_sort, h1, h1']
    · have h1' : (explode_sort_arg_pieces a).1 ≠ [] := by
        intro hh
        exact h1 (by simp [hh])
      by_cases h2 : (explode_sort_arg_pieces a).2 = ascendingKW ∨
          (explode_sort_arg_pieces a).2 = descendingKW
      · simp [validate_sort, h1, h2, ih, h1']
      · simp [validate_sort, h1, h2, h1']

/-- Every error raised by `validate_sort` is a `ValueError`. -/
theorem validate_sort_error_valueError (args : List (List Char)) (e : ClientError)
    (h : validate_sort args = .error e) : ∃ m, e = ClientError.valueError m := by
  induction args with
  | nil => simp [validate_sort] at h
  | cons a rest ih =>
    by_cases h1 : (explode_sort_arg_pieces a).1.length = 0
    · simp [validate_sort, h1] at h
      exact ⟨fieldNameErrorMsg, h.symm⟩
    · by_cases h2 : (explode_sort_arg_pieces a).2 = ascendingKW ∨
          (explode_sort_arg_pieces a).2 = descendingKW
      · simp [validate_sort, h1, h2] at h
        exact ih h
      · simp [validate_sort, h1, h2] at h
        exact ⟨directionErrorMsg, h.symm⟩

/-- `parse_sort` succeeds when every token explodes to a legal direction. -/
theorem parse_sort_ok_of_legal (args : List (List Char))
    (h : ∀ a ∈ args, (explode_sort_arg_pieces a).2 = ascendingKW ∨
        (explode_sort_arg_pieces a).2 = descendingKW) :
    ∃ l, parse_sort args = .ok l := by
  induction args with
  | nil => exact ⟨[], rfl⟩
  | cons a rest ih =>
    have ha := h a (List.mem_cons_self a rest)
    obtain ⟨l, hl⟩ := ih (fun x hx => h x (List.mem_cons_of_mem a hx))
    exact ⟨explode_sort_arg_pieces a :: l, by simp [parse_sort, ha, hl, Except.map]⟩

/-! Claim theorems. -/

/-- Claim C1: for every list of strings in which each element contains at
least one `=`, `_parse_key_value` returns a same-length list, in input
order, where each output pair's field is the substring before the first `=`
of the corresponding input and its value is everything after that first
`=`. -/
theorem parse_key_value_splits_on_first_eq (args : List (List Char))
    (h : ∀ a ∈ args, '=' ∈ a) :
    parse_key_value args =
      .ok (args.map fun a =>
        (a.takeWhile (fun c => c ≠ '='), (a.dropWhile (fun c => c ≠ '=')).drop 1)) := by
  induction args with
  | nil => rfl
  | cons a rest ih =>
    have ha : '=' ∈ a := h a (List.mem_cons_self a rest)
    have hr := ih (fun x hx => h x (List.mem_cons_of_mem a hx))
    simp [parse_key_value, pySplitOnce_of_mem '=' a ha, hr, Except.map]

/-- Witness for C1 at the concrete input `["a=b=c"]`, which yields
`("a", "b=c")`. -/
theorem parse_key_value_splits_on_first_eq_witness :
    parse_key_value ["a=b=c".toList] =
      .ok (["a=b=c".toList].map fun a =>
        (a.takeWhile (fun c => c ≠ '='), (a.dropWhile (fun c => c ≠ '=')).drop 1)) :=
  parse_key_value_splits_on_first_eq ["a=b=c".toList] (by decide)

/-- Claim C2: `_explode_sort_arg_pieces` computes exactly the spec's
algorithm (`explodeSortArgSpec`): lower-case the whole token, split on `,`,
field is component 0, only component 1 is consulted as the direction and
later components are ignored, defaulting to `ascending`; in particular
`"Name"` yields `("name", "ascending")`. -/
theorem explode_sort_arg_pieces_spec :
    (∀ s : List Char, explode_sort_arg_pieces s = explodeSortArgSpec s) ∧
    explode_sort_arg_pieces "Name".toList = ("name".toList, ascendingKW) := by
  refine ⟨?_, rfl⟩
  intro s
  unfold explode_sort_arg_pieces explodeSortArgSpec pySplit
  cases h : (splitAllAux ',' (s.map Char.toLower)).2 with
  | nil => simp
  | cons d ds => by_cases hd : d = [] <;> simp [hd]

/-- Witness for C2 at the concrete token `"Name"`. -/
theorem explode_sort_arg_pieces_spec_witness :
    explode_sort_arg_pieces "Name".toList = explodeSortArgSpec "Name".toList :=
  explode_sort_arg_pieces_spec.1 "Name".toList

/-- Claim C3: whenever `_validate_sort` completes without raising,
`_parse_sort` on the same token list never raises the internal-consistency
`CommandUsage` fault: the usage-fault branch is unreachable after
validation passes. -/
theorem parse_sort_no_usage_after_validate (args : List (List Char))
    (h : validate_sort args = .ok ()) :
    parse_sort args ≠ .error ClientError.commandUsage := by
  have hall := (validate_sort_ok_iff args).mp h
  obtain ⟨l, hl⟩ := parse_sort_ok_of_legal args (fun a ha => (hall a ha).2)
  rw [hl]
  simp

/-- Witness for C3 at the concrete input `["a,descending"]`. -/
theorem parse_sort_no_usage_after_validate_witness :
    parse_sort ["a,descending".toList] ≠ .error ClientError.commandUsage :=
  parse_sort_no_usage_after_validate ["a,descending".toList] rfl

/-- Claim C4: `_validate_sort` raises a `ValueError` exactly when some
token explodes to an empty field name or to a direction other than
`ascending`/`descending`; in particular `",ascending"` and
`"name,sideways"` are rejected. -/
theorem validate_sort_error_iff :
    (∀ args : List (List Char),
      (∃ m, validate_sort args = .error (ClientError.valueError m)) ↔
        ∃ a ∈ args, (explode_sort_arg_pieces a).1 = [] ∨
          ¬ ((explode_sort_arg_pieces a).2 = ascendingKW ∨
             (explode_sort_arg_pieces a).2 = descendingKW)) ∧
    validate_sort [",ascending".toList] =
      .error (ClientError.valueError fieldNameErrorMsg) ∧
    validate_sort ["name,sideways".toList] =
      .error (ClientError.valueError directionErrorMsg) := by
  refine ⟨?_, rfl, rfl⟩
  intro args
  constructor
  · rintro ⟨m, hm⟩
    by_contra hno
    push_neg at hno
    have hok : validate_sort args = .ok () := by
      refine (validate_sort_ok_iff args).mpr ?_
      intro a ha
      exact hno a ha
    rw [hok] at hm
    simp at hm
  · rintro ⟨a, ha, hbad⟩
    cases hv : validate_sort args with
    | ok u =>
      cases u
      have hgood := (validate_sort_ok_iff args).mp hv a ha
      rcases hbad with h1 | h2
      · exact absurd h1 hgood.1
      · exact absurd hgood.2 h2
    | error e =>
      obtain ⟨m, hm⟩ := validate_sort_error_valueError args e hv
      exact ⟨m, by rw [hm]⟩

/-- Witness for C4 at the concrete input `["name,sideways"]`. -/
theorem validate_sort_error_iff_witness :
    ∃ m, validate_sort ["name,sideways".toList] =
      .error (ClientError.valueError m) :=
  (validate_sort_error_iff.1 ["name,sideways".toList]).mpr
    ⟨"name,sideways".toList, List.mem_cons_self _ _, Or.inr (by decide)⟩

/-- Claim C5: `_parse_key_value` raises its `ValueError` (the spec's
FormatError) exactly when some element contains no `=` at all; the
`Except` result makes the whole call fail before any result is produced. -/
theorem parse_key_value_error_iff (args : List (List Char)) :
    parse_key_value args = .error (ClientError.valueError kvErrorMsg) ↔
      ∃ a ∈ args, '=' ∉ a := by
  induction args with
  | nil => simp [parse_key_value]
  | cons a rest ih =>
    by_cases ha : '=' ∈ a
    · rw [show parse_key_value (a :: rest) =
          (parse_key_value rest).map
            (fun r => (a.takeWhile (fun c => c ≠ '='),
                       (a.dropWhile (fun c => c ≠ '=')).drop 1) :: r) by
        simp [parse_key_value, pySplitOnce_of_mem '=' a ha]]
      cases hre : parse_key_value rest with
      | ok l => simp [Except.map, ha, ← ih, hre]
      | error e =>
        have he : e = ClientError.valueError kvErrorMsg :=
          parse_key_value_error_msg rest e hre
        subst he
        simp [Except.map, ha, ← ih, hre]
    · simp [parse_key_value, pySplitOnce_of_not_mem '=' a ha, ha]

/-- Witness for C5 at the concrete input `["novalue"]`. -/
theorem parse_key_value_error_iff_witness :
    parse_key_value ["novalue".toList] =
      .error (ClientError.valueError kvErrorMsg) :=
  (parse_key_value_error_iff ["novalue".toList]).mpr
    ⟨"novalue".toList, List.mem_cons_self _ _, by decide⟩

/-- Claim C6: whenever `_parse_sort` succeeds, its output is exactly the
map of `_explode_sort_arg_pieces` over the input tokens, so the i-th
output pair is derived from the i-th input token in flag-occurrence
order. -/
theorem parse_sort_preserves_order (args : List (List Char))
    (l : List (List Char × List Char)) (h : parse_sort args = .ok l) :
    l = args.map explode_sort_arg_pieces := by
  induction args generalizing l with
  | nil =>
    simp [parse_sort] at h
    simp [h.symm]
  | cons a rest ih =>
    by_cases ha : (explode_sort_arg_pieces a).2 = ascendingKW ∨
        (explode_sort_arg_pieces a).2 = descendingKW
    · simp [parse_sort, ha] at h
      cases hre : parse_sort rest with
      | error e => rw [hre] at h; simp [Except.map] at h
      | ok l' =>
        rw [hre] at h
        simp [Except.map] at h
        simp [h.symm, ih l' hre]
    · simp [parse_sort, ha] at h

/-- Witness for C6 at the concrete input `["b", "a,descending"]`, whose
parse is `[("b","ascending"), ("a","descending")]` in that order. -/
theorem parse_sort_preserves_order_witness :
    [("b".toList, ascendingKW), ("a".toList, descendingKW)] =
      ["b".toList, "a,descending".toList].map explode_sort_arg_pieces :=
  parse_sort_preserves_order ["b".toList, "a,descending".toList]
    [("b".toList, ascendingKW), ("a".toList, descendingKW)] rfl

/-- Claim C7: for either value of the `filtering` flag, the copy command's
option set contains the required `--from-repo-id` and `--to-repo-id` and
excludes `--repo-id`, `--limit`, `--skip`, `--sort` and `--fields`. -/
theorem unit_copy_command_option_set (filtering : Bool) :
    ((⟨"--from-repo-id", true⟩ : CmdOption) ∈ unitCopyCommandOptions filtering ∧
     (⟨"--to-repo-id", true⟩ : CmdOption) ∈ unitCopyCommandOptions filtering) ∧
    ∀ o ∈ unitCopyCommandOptions filtering,
      o.name ≠ "--repo-id" ∧ o.name ≠ "--limit" ∧ o.name ≠ "--skip" ∧
      o.name ≠ "--sort" ∧ o.name ≠ "--fields" := by
  cases filtering <;> decide

/-- Witness for C7 at the default construction (`filtering = true`). -/
theorem unit_copy_command_option_set_witness :
    (⟨"--from-repo-id", true⟩ : CmdOption) ∈ unitCopyCommandOptions true :=
  (unit_copy_command_option_set true).1.1

/-- Claim C8: for either value of the `criteria` flag, the search-all
command's option set excludes every filter option (`--filters` and the
per-operator flags), `--sort` and `--fields`; and the default construction
(`criteria = true`) retains `--limit` and `--skip`. -/
theorem unit_search_all_command_option_set :
    (∀ criteria : Bool, ∀ o ∈ unitSearchAllCommandOptions criteria,
        o.name ≠ "--filters" ∧ o.name ≠ "--str-eq" ∧ o.name ≠ "--int-eq" ∧
        o.name ≠ "--match" ∧ o.name ≠ "--in" ∧ o.name ≠ "--not" ∧
        o.name ≠ "--gt" ∧ o.name ≠ "--gte" ∧ o.name ≠ "--lt" ∧
        o.name ≠ "--lte" ∧ o.name ≠ "--sort" ∧ o.name ≠ "--fields") ∧
    (⟨"--limit", false⟩ : CmdOption) ∈ unitSearchAllCommandOptions true ∧
    (⟨"--skip", false⟩ : CmdOption) ∈ unitSearchAllCommandOptions true := by
  refine ⟨?_, by decide, by decide⟩
  intro c
  cases c <;> decide

/-- Witness for C8: the default search-all construction keeps `--limit`. -/
theorem unit_search_all_command_option_set_witness :
    (⟨"--limit", false⟩ : CmdOption) ∈ unitSearchAllCommandOptions true :=
  unit_search_all_command_option_set.2.1

/-- Claim C9: a trailing comma (empty explicit direction component) is
treated exactly like a missing direction: exploding `f ++ ","` equals
exploding `f` for every token `f`, and concretely `"field,"` passes
validation and parses to `("field", "ascending")`. -/
theorem trailing_comma_defaults_direction :
    (∀ f : List Char,
      explode_sort_arg_pieces (f ++ [',']) = explode_sort_arg_pieces f) ∧
    validate_sort ["field,".toList] = .ok () ∧
    parse_sort ["field,".toList] = .ok [("field".toList, ascendingKW)] := by
  refine ⟨?_, rfl, rfl⟩
  intro f
  have hc : Char.toLower ',' = ',' := by decide
  unfold explode_sort_arg_pieces
  rw [List.map_append, List.map_cons, List.map_nil, hc, pySplit_append_sep]
  unfold pySplit
  cases (splitAllAux ',' (f.map Char.toLower)).2 with
  | nil => simp
  | cons d ds => simp

/-- Witness for C9 at the concrete token `"field"`. -/
theorem trailing_comma_defaults_direction_witness :
    explode_sort_arg_pieces ("field".toList ++ [',']) =
      explode_sort_arg_pieces "field".toList :=
  trailing_comma_defaults_direction.1 "field".toList

/-- Claim C10: `_parse_key_value` accepts an empty field name: any element
beginning with `=` splits into the empty field and the remainder as value,
with no emptiness check applied. -/
theorem parse_key_value_accepts_empty_field (v : List Char) :
    parse_key_value ['=' :: v] = .ok [(([] : List Char), v)] := rfl

/-- Witness for C10 at the concrete input `["=v"]`. -/
theorem parse_key_value_accepts_empty_field_witness :
    parse_key_value ['=' :: "v".toList] = .ok [(([] : List Char), "v".toList)] :=
  parse_key_value_accepts_empty_field "v".toList

end PulpSearch
